import Mathlib

/-!
Verification of the SQL-Optimization utility (`sql_opt_v2.py`).

The file embeds the pure core of the program: the WHERE-clause column
extractor `extract_columns_from_where` (a faithful character-level model of
the three concrete regular expressions the source applies), the plan
analyzer `analyze_plan_and_suggest`, the reporting layer's percentage
computation, and a trace model of the periodic `automated_task` routine.
-/

namespace SqlOpt

/-! Character classes of the Python regexes, specialized to ASCII input.
`isWordChar` is the class of `\w` (and of word boundaries `\b`);
`isPySpace` is the class of `\s` and of `str.strip`. -/

def isWordChar (c : Char) : Bool := c.isAlphanum || c == '_'

def isPySpace (c : Char) : Bool :=
  c == ' ' || c == '\t' || c == '\n' || c == '\r' || c == '\x0b' || c == '\x0c'

/-- Right word boundary: the position at the head of `l` is a boundary when
`l` is empty or starts with a non-word character. -/
def rightBd (l : List Char) : Bool :=
  match l with
  | [] => true
  | c :: _ => !isWordChar c

/-- Does `l` begin with the word `WHERE` (case-insensitive) followed by a
right word boundary?  Models the `\bWHERE\b` part of
`re.search(r'\bWHERE\b(.*)', query, re.IGNORECASE)` at one position, the
left-boundary side being tracked by the caller. -/
def startsWithWhereWord (l : List Char) : Bool :=
  match l with
  | c1 :: c2 :: c3 :: c4 :: c5 :: rest =>
    c1.toLower == 'w' && c2.toLower == 'h' && c3.toLower == 'e' &&
    c4.toLower == 'r' && c5.toLower == 'e' && rightBd rest
  | _ => false

/-- Leftmost search for `\bWHERE\b`, returning the text after the keyword
(to the end of the string).  `prev` records whether the character just
before the current position is a word character (left boundary state);
the top-level call passes `false` (start of string is a boundary). -/
def searchWhere : Bool → List Char → Option (List Char)
  | _, [] => none
  | prev, c :: rest =>
    if !prev && startsWithWhereWord (c :: rest) then some ((c :: rest).drop 5)
    else searchWhere (isWordChar c) rest

/-- Split on `\bAND\b|\bOR\b` (case-insensitive), as
`re.split(r'\bAND\b|\bOR\b', conditions, flags=re.IGNORECASE)` does:
scan left to right, `prev` being the left-boundary state, and cut out each
whole-word `AND`/`OR`.  The accumulator holds the current segment reversed. -/
def splitAndOr : Bool → List Char → List Char → List (List Char)
  | _, acc, [] => [acc.reverse]
  | prev, acc, a :: n :: d :: t =>
    if !prev && a.toLower == 'a' && n.toLower == 'n' && d.toLower == 'd' && rightBd t then
      acc.reverse :: splitAndOr true [] t
    else if !prev && a.toLower == 'o' && n.toLower == 'r' && rightBd (d :: t) then
      acc.reverse :: splitAndOr true [] (d :: t)
    else
      splitAndOr (isWordChar a) (a :: acc) (n :: d :: t)
  | prev, acc, a :: n :: [] =>
    if !prev && a.toLower == 'o' && n.toLower == 'r' then
      [acc.reverse, []]
    else
      splitAndOr (isWordChar a) (a :: acc) [n]
  | _, acc, [a] => splitAndOr (isWordChar a) (a :: acc) []

/-- Does a whole-word `AND` (case-insensitive) match at the head of `l`,
`prev` being the left-boundary state?  A uniform view of the first
branch of `splitAndOr`. -/
def andFire (prev : Bool) (l : List Char) : Bool :=
  match l with
  | a :: n :: d :: t =>
    !prev && a.toLower == 'a' && n.toLower == 'n' && d.toLower == 'd' && rightBd t
  | _ => false

/-- Does a whole-word `OR` (case-insensitive) match at the head of `l`?
A uniform view of the second branch of `splitAndOr`. -/
def orFire (prev : Bool) (l : List Char) : Bool :=
  match l with
  | o :: r :: t => !prev && o.toLower == 'o' && r.toLower == 'r' && rightBd t
  | _ => false

/-- Python `str.strip`: drop leading and trailing whitespace. -/
def strip (l : List Char) : List Char :=
  ((l.dropWhile isPySpace).reverse.dropWhile isPySpace).reverse

/-- Does the text start with a comparison character?  (In the source's
alternation `=|>|<|>=|<=` the two-character operators are unreachable,
the single characters matching first; only the head character
decides.) -/
def matchOpHead : List Char → Bool
  | [] => false
  | op :: _ => op == '=' || op == '>' || op == '<'

/-- One fragment's match against
`re.match(r'\s*([a-zA-Z_][a-zA-Z0-9_]*)\s*(=|>|<|>=|<=)', part)` once
leading whitespace is gone: an identifier head character, a maximal run
of word characters, optional whitespace, then a comparison character.
Returns the identifier group. -/
def matchColumnCore : List Char → Option (List Char)
  | [] => none
  | c :: rest =>
    if c.isAlpha || c == '_' then
      if matchOpHead ((rest.dropWhile isWordChar).dropWhile isPySpace) then
        some (c :: rest.takeWhile isWordChar)
      else none
    else none

/-- The fragment matcher: the regex's leading `\s*`, then the core. -/
def matchColumn (l : List Char) : Option (List Char) :=
  matchColumnCore (l.dropWhile isPySpace)

/-- The body of `extract_columns_from_where` once the WHERE search has
run: take the clause up to the first newline (`(.*)` with `.` not
matching `\n`), split it on AND/OR, and collect the identifier of every
fragment shaped `column operator ...`. -/
def extractFromSearch : Option (List Char) → List String
  | none => []
  | some rest =>
    let conditions := rest.takeWhile (fun c => c != '\n')
    let parts := splitAndOr false [] conditions
    (parts.filterMap (fun part => matchColumn (strip part))).map (fun cs => String.mk cs)

/-- The source's `extract_columns_from_where`: locate the WHERE clause
with the leftmost whole-word case-insensitive search, then extract the
condition columns; no clause means no columns. -/
def extract_columns_from_where (query : String) : List String :=
  extractFromSearch (searchWhere false query.toList)

/-! Plan analysis (`analyze_plan_and_suggest`).  A plan row is the
ten-field EXPLAIN tuple the source unpacks; nullable fields are `Option`.
A Python exception is modelled by `Option.none` at the function level. -/

/-- One EXPLAIN row, with the source's ten tuple fields.  `table` is
nullable (derived rows), `accessType` is the tuple's `type` column
(`type_val` in the source), `possibleKeys` and `key` are nullable. -/
structure PlanRow where
  id : Int
  selectType : String
  table : Option String
  accessType : Option String
  possibleKeys : Option (List String)
  key : Option String
  keyLen : Option Int
  ref : Option String
  rowsEstimate : Int
  extra : String
deriving DecidableEq

/-- How a Python f-string renders the `table` value: `None` prints as
the four characters `None`. -/
def renderTable : Option String → String
  | some t => t
  | none => "None"

/-- The suggestion message the source builds for a row's table, given the
candidate columns extracted from the query (`if candidate_columns:` is the
non-emptiness test). -/
def suggestionFor (table : Option String) (cand : List String) : String :=
  if cand.isEmpty then
    "Review the WHERE clause for table '" ++ renderTable table ++
      "' and consider adding appropriate indexes."
  else
    "Consider adding an index on table '" ++ renderTable table ++
      "' for columns: " ++ String.intercalate ", " cand ++ "."

/-- Python dict assignment `suggestions[table] = v`: replace the value at
an existing key in place, else append a new entry (insertion order). -/
def dictInsert (k : Option String) (v : String) :
    List (Option String × String) → List (Option String × String)
  | [] => [(k, v)]
  | (k1, v1) :: rest =>
    if k1 = k then (k, v) :: rest else (k1, v1) :: dictInsert k v rest

/-- Python `str.upper` on an ASCII string: uppercase character by
character. -/
def upperS (s : String) : String := String.mk (s.data.map Char.toUpper)

/-- The source's trigger condition for a row, as a Boolean: the access
type (present) uppercases to `ALL` and `possible_keys is None or key is
None`.  A row with no access type never "triggers"; the source raises
there instead (see `analyzeGo`). -/
def rowTriggers (row : PlanRow) : Bool :=
  match row.accessType with
  | none => false
  | some tv => upperS tv == "ALL" && (row.possibleKeys.isNone || row.key.isNone)

/-- The row loop of `analyze_plan_and_suggest`, threading the suggestions
dict.  A row whose `type` field is `None` makes `type_val.upper()` raise
`AttributeError`, modelled as `none` for the whole call. -/
def analyzeGo (cand : List String) :
    List PlanRow → List (Option String × String) → Option (List (Option String × String))
  | [], acc => some acc
  | row :: rest, acc =>
    match row.accessType with
    | none => none
    | some tv =>
      if upperS tv == "ALL" then
        if row.possibleKeys.isNone || row.key.isNone then
          analyzeGo cand rest (dictInsert row.table (suggestionFor row.table cand) acc)
        else analyzeGo cand rest acc
      else analyzeGo cand rest acc

/-- The source's `analyze_plan_and_suggest`: extract candidate columns
once, then scan the plan rows in order building the suggestions mapping. -/
def analyze_plan_and_suggest (plan : List PlanRow) (query : String) :
    Option (List (Option String × String)) :=
  analyzeGo (extract_columns_from_where query) plan []

/-! Reporting layer (`sql_analysis_demo`).  The measured durations are
modelled as exact rationals; `if original_time:` is Python truthiness,
false exactly at zero. -/

/-- The percentage-improvement computation of `sql_analysis_demo`:
`((original - optimized) / original) * 100` when `original_time` is
truthy (non-zero), else `0`. -/
def improvementPercent (original_time optimized_time : ℚ) : ℚ :=
  if original_time ≠ 0 then ((original_time - optimized_time) / original_time) * 100
  else 0

/-! The periodic maintenance routine (`automated_task`), modelled as the
trace of database-visible events it performs.  Each of the five fallible
operations inside the `try` block (the two `execute` calls, the two
`fetchone` calls, and `commit`) either succeeds or raises a
`mysql.connector.Error`, chosen by a Boolean flag; cursor creation and
`rollback` are modelled as succeeding. -/

/-- Database-visible events of one `automated_task` invocation. -/
inductive DbEv where
  | txnStarted
  | countQueried
  | statusQueried
  | committed
  | rolledBack
  | cursorClosed
deriving DecidableEq

/-- Trace of one `automated_task` call.  `inTxn` is `conn.in_transaction`
on entry; `fExecCount`, `fFetchCount`, `fExecStatus`, `fFetchStatus`,
`fCommit` say which fallible operation raises first (earlier flags mask
later ones, as control flow jumps to `except` at the first raise).  The
`except` arm rolls back; the `finally` arm always closes the cursor. -/
def automated_task (inTxn fExecCount fFetchCount fExecStatus fFetchStatus fCommit : Bool) :
    List DbEv :=
  (if inTxn then [] else [DbEv.txnStarted]) ++
  (if fExecCount then [DbEv.rolledBack]
   else if fFetchCount then [DbEv.countQueried, DbEv.rolledBack]
   else if fExecStatus then [DbEv.countQueried, DbEv.rolledBack]
   else if fFetchStatus then [DbEv.countQueried, DbEv.statusQueried, DbEv.rolledBack]
   else if fCommit then [DbEv.countQueried, DbEv.statusQueried, DbEv.rolledBack]
   else [DbEv.countQueried, DbEv.statusQueried, DbEv.committed]) ++
  [DbEv.cursorClosed]

/-! Specification-side definitions.  These phrase the shapes the claims
quantify over — a filter clause made of simple `column OP value`
predicates joined by `AND`/`OR`, an occurrence of the `WHERE` keyword,
and the claimed trigger condition — so the theorems can compare the
source's behaviour with the claims' words. -/

/-- One simple predicate `column OP value` of a filter clause, as the
spec describes it (identifier, comparison operator, value). -/
structure SimplePred where
  ident : List Char
  op : List Char
  value : List Char
deriving DecidableEq

/-- Lowercase a character list. -/
def lowerL (l : List Char) : List Char := l.map Char.toLower

/-- A well-formed column identifier: starts with a letter or underscore,
made of word characters, and not itself one of the joining keywords. -/
def wfIdent (w : List Char) : Bool :=
  match w with
  | [] => false
  | c :: _ =>
    (c.isAlpha || c == '_') && w.all isWordChar &&
    !(lowerL w == ['a', 'n', 'd']) && !(lowerL w == ['o', 'r'])

/-- A comparison operator from the spec's set. -/
def wfOp (op : List Char) : Bool :=
  op == ['='] || op == ['>'] || op == ['<'] || op == ['>', '='] || op == ['<', '=']

/-- A simple value token: non-empty, word characters only, not one of
the joining keywords. -/
def wfValue (v : List Char) : Bool :=
  !v.isEmpty && v.all isWordChar &&
  !(lowerL v == ['a', 'n', 'd']) && !(lowerL v == ['o', 'r'])

/-- Well-formedness of a simple predicate. -/
def wfPred (p : SimplePred) : Bool := wfIdent p.ident && wfOp p.op && wfValue p.value

/-- Canonical text of a simple predicate: `ident OP value` with single
spaces. -/
def renderPred (p : SimplePred) : List Char := p.ident ++ ' ' :: p.op ++ ' ' :: p.value

/-- Text of a joining keyword with its surrounding spaces: true renders
as ` AND `, false as ` OR `. -/
def renderSep (conj : Bool) : List Char :=
  if conj then [' ', 'A', 'N', 'D', ' '] else [' ', 'O', 'R', ' ']

/-- Text of the remaining predicates of a clause, each preceded by its
joining keyword. -/
def renderTail : List (Bool × SimplePred) → List Char
  | [] => []
  | (c, p) :: ps => renderSep c ++ renderPred p ++ renderTail ps

/-- The full filter-clause text standing after the `WHERE` keyword: a
space, the first predicate, then the joined rest. -/
def renderClause (p : SimplePred) (ps : List (Bool × SimplePred)) : List Char :=
  ' ' :: (renderPred p ++ renderTail ps)

/-- The fragments `splitAndOr` is expected to cut a rendered clause into:
every predicate keeps the space before it, and all but the last keep the
space that preceded the following keyword. -/
def expectedParts : SimplePred → List (Bool × SimplePred) → List (List Char)
  | p, [] => [' ' :: renderPred p]
  | p, (_, q) :: ps => (' ' :: renderPred p ++ [' ']) :: expectedParts q ps

/-- Position `i` of `l` sits at a left word boundary: start of string, or
the previous character is not a word character. -/
def wordBoundaryAt (l : List Char) (i : Nat) : Prop :=
  i = 0 ∨ ∃ j c t, i = j + 1 ∧ l.drop j = c :: t ∧ isWordChar c = false

/-- The `WHERE` keyword occurs (as a whole word, case-insensitive) at
position `i` of `l`. -/
def whereOccursAt (l : List Char) (i : Nat) : Prop :=
  startsWithWhereWord (l.drop i) = true ∧ wordBoundaryAt l i

/-- The trigger condition exactly as claim C1 words it: access type
uppercases to `ALL`, and `possibleKeys` is absent or empty, or `key` is
absent.  (The source differs: an empty-but-present `possibleKeys` does
not trigger there.) -/
def specTriggerC1 (row : PlanRow) : Prop :=
  (∃ s, row.accessType = some s ∧ upperS s = "ALL") ∧
  (row.possibleKeys = none ∨ row.possibleKeys = some [] ∨ row.key = none)

/-- Every key occurs at most once in the association list (the dict
invariant of the suggestions mapping). -/
def keysOnce (l : List (Option String × String)) : Prop :=
  ∀ t : Option String, l.countP (fun e => decide (e.1 = t)) ≤ 1

/-! Lemmas about the suggestions dictionary. -/

lemma dictInsert_mem_keys (k : Option String) (v : String)
    (l : List (Option String × String)) (t : Option String) :
    (∃ w, (t, w) ∈ dictInsert k v l) ↔ t = k ∨ ∃ w, (t, w) ∈ l := by
  induction l with
  | nil => simp [dictInsert]
  | cons e rest ih =>
    obtain ⟨k1, v1⟩ := e
    by_cases h : k1 = k
    · subst h
      simp only [dictInsert, if_pos rfl]
      constructor
      · rintro ⟨w, hw⟩
        rcases List.mem_cons.mp hw with h1 | h1
        · exact Or.inl (congrArg Prod.fst h1)
        · exact Or.inr ⟨w, List.mem_cons_of_mem _ h1⟩
      · rintro (rfl | ⟨w, hw⟩)
        · exact ⟨v, List.mem_cons_self _ _⟩
        · rcases List.mem_cons.mp hw with h1 | h1
          · exact ⟨v, by rw [show t = k1 from congrArg Prod.fst h1]; exact List.mem_cons_self _ _⟩
          · exact ⟨w, List.mem_cons_of_mem _ h1⟩
    · simp only [dictInsert, if_neg h]
      constructor
      · rintro ⟨w, hw⟩
        rcases List.mem_cons.mp hw with h1 | h1
        · exact Or.inr ⟨w, by rw [show (t, w) = (k1, v1) from h1]; exact List.mem_cons_self _ _⟩
        · rcases ih.mp ⟨w, h1⟩ with h2 | ⟨w2, hw2⟩
          · exact Or.inl h2
          · exact Or.inr ⟨w2, List.mem_cons_of_mem _ hw2⟩
      · rintro (rfl | ⟨w, hw⟩)
        · obtain ⟨w, hw⟩ := ih.mpr (Or.inl rfl)
          exact ⟨w, List.mem_cons_of_mem _ hw⟩
        · rcases List.mem_cons.mp hw with h1 | h1
          · exact ⟨v1, by rw [show t = k1 from congrArg Prod.fst h1]; exact List.mem_cons_self _ _⟩
          · obtain ⟨w2, hw2⟩ := ih.mpr (Or.inr ⟨w, h1⟩)
            exact ⟨w2, List.mem_cons_of_mem _ hw2⟩

lemma dictInsert_mem (k : Option String) (v : String)
    (l : List (Option String × String)) (t : Option String) (w : String)
    (h : (t, w) ∈ dictInsert k v l) : (t = k ∧ w = v) ∨ (t, w) ∈ l := by
  induction l with
  | nil =>
    simp only [dictInsert, List.mem_singleton] at h
    exact Or.inl ⟨congrArg Prod.fst h, congrArg Prod.snd h⟩
  | cons e rest ih =>
    obtain ⟨k1, v1⟩ := e
    by_cases hk : k1 = k
    · subst hk
      simp only [dictInsert, if_pos rfl] at h
      rcases List.mem_cons.mp h with h1 | h1
      · exact Or.inl ⟨congrArg Prod.fst h1, congrArg Prod.snd h1⟩
      · exact Or.inr (List.mem_cons_of_mem _ h1)
    · simp only [dictInsert, if_neg hk] at h
      rcases List.mem_cons.mp h with h1 | h1
      · exact Or.inr (List.mem_cons.mpr (Or.inl h1))
      · rcases ih h1 with h2 | h2
        · exact Or.inl h2
        · exact Or.inr (List.mem_cons_of_mem _ h2)

lemma countP_dictInsert_self (k : Option String) (v : String)
    (l : List (Option String × String)) :
    (dictInsert k v l).countP (fun e => decide (e.1 = k)) =
      max 1 (l.countP (fun e => decide (e.1 = k))) := by
  induction l with
  | nil => simp [dictInsert]
  | cons e rest ih =>
    obtain ⟨k1, v1⟩ := e
    by_cases h : k1 = k
    · subst h
      simp [dictInsert, List.countP_cons]
    · simp [dictInsert, h, List.countP_cons, ih]

lemma countP_dictInsert_ne (k : Option String) (v : String)
    (l : List (Option String × String)) (t : Option String) (hne : t ≠ k) :
    (dictInsert k v l).countP (fun e => decide (e.1 = t)) =
      l.countP (fun e => decide (e.1 = t)) := by
  induction l with
  | nil => simp [dictInsert, List.countP_cons, Ne.symm hne]
  | cons e rest ih =>
    obtain ⟨k1, v1⟩ := e
    by_cases h : k1 = k
    · subst h
      simp [dictInsert, List.countP_cons]
    · simp [dictInsert, h, List.countP_cons, ih]

lemma keysOnce_dictInsert (k : Option String) (v : String)
    (l : List (Option String × String)) (h : keysOnce l) :
    keysOnce (dictInsert k v l) := by
  intro t
  by_cases ht : t = k
  · subst ht
    rw [countP_dictInsert_self]
    have := h t
    omega
  · rw [countP_dictInsert_ne k v l t ht]
    exact h t

/-! Lemmas about the analyzer's row loop. -/

lemma analyzeGo_cons (cand : List String) (row : PlanRow) (rest : List PlanRow)
    (acc : List (Option String × String)) :
    analyzeGo cand (row :: rest) acc =
      match row.accessType with
      | none => none
      | some _ =>
        if rowTriggers row = true then
          analyzeGo cand rest (dictInsert row.table (suggestionFor row.table cand) acc)
        else analyzeGo cand rest acc := by
  cases h : row.accessType with
  | none => simp [analyzeGo, h]
  | some tv =>
    simp only [analyzeGo, h, rowTriggers]
    by_cases hA : (upperS tv == "ALL") = true
    · by_cases hB : (row.possibleKeys.isNone || row.key.isNone) = true
      · simp [hA, hB]
      · simp [hA, hB]
    · simp [hA]

lemma analyzeGo_isSome (cand : List String) :
    ∀ (plan : List PlanRow) (acc : List (Option String × String)),
      (∀ r ∈ plan, r.accessType.isSome = true) →
      (analyzeGo cand plan acc).isSome = true := by
  intro plan
  induction plan with
  | nil => intro acc h; simp [analyzeGo]
  | cons row rest ih =>
    intro acc h
    rw [analyzeGo_cons]
    cases hA : row.accessType with
    | none =>
      have := h row (List.mem_cons_self _ _)
      rw [hA] at this
      simp at this
    | some tv =>
      have hrest : ∀ r ∈ rest, r.accessType.isSome = true :=
        fun r hr => h r (List.mem_cons_of_mem _ hr)
      by_cases ht : rowTriggers row = true
      · rw [if_pos ht]
        exact ih _ hrest
      · rw [if_neg ht]
        exact ih _ hrest

lemma analyzeGo_keys (cand : List String) :
    ∀ (plan : List PlanRow) (acc : List (Option String × String))
      (res : List (Option String × String)),
      analyzeGo cand plan acc = some res →
      ∀ t : Option String,
        (∃ w, (t, w) ∈ res) ↔
          (∃ w, (t, w) ∈ acc) ∨ ∃ r, r ∈ plan ∧ r.table = t ∧ rowTriggers r = true := by
  intro plan
  induction plan with
  | nil =>
    intro acc res h t
    simp only [analyzeGo, Option.some.injEq] at h
    subst h
    simp
  | cons row rest ih =>
    intro acc res h t
    rw [analyzeGo_cons] at h
    cases hA : row.accessType with
    | none => rw [hA] at h; exact absurd h (by simp)
    | some tv =>
      rw [hA] at h
      by_cases ht : rowTriggers row = true
      · rw [if_pos ht] at h
        rw [ih _ _ h t, dictInsert_mem_keys]
        constructor
        · rintro ((rfl | hacc) | ⟨r, hr, hrt, hrtrig⟩)
          · exact Or.inr ⟨row, List.mem_cons_self _ _, rfl, ht⟩
          · exact Or.inl hacc
          · exact Or.inr ⟨r, List.mem_cons_of_mem _ hr, hrt, hrtrig⟩
        · rintro (hacc | ⟨r, hr, hrt, hrtrig⟩)
          · exact Or.inl (Or.inr hacc)
          · rcases List.mem_cons.mp hr with rfl | hr2
            · exact Or.inl (Or.inl hrt.symm)
            · exact Or.inr ⟨r, hr2, hrt, hrtrig⟩
      · rw [if_neg ht] at h
        rw [ih _ _ h t]
        constructor
        · rintro (hacc | ⟨r, hr, hrt, hrtrig⟩)
          · exact Or.inl hacc
          · exact Or.inr ⟨r, List.mem_cons_of_mem _ hr, hrt, hrtrig⟩
        · rintro (hacc | ⟨r, hr, hrt, hrtrig⟩)
          · exact Or.inl hacc
          · rcases List.mem_cons.mp hr with rfl | hr2
            · exact absurd hrtrig ht
            · exact Or.inr ⟨r, hr2, hrt, hrtrig⟩

lemma analyzeGo_values (cand : List String) :
    ∀ (plan : List PlanRow) (acc : List (Option String × String))
      (res : List (Option String × String)),
      analyzeGo cand plan acc = some res →
      ∀ (t : Option String) (w : String),
        (t, w) ∈ res → (t, w) ∈ acc ∨ w = suggestionFor t cand := by
  intro plan
  induction plan with
  | nil =>
    intro acc res h t w hm
    simp only [analyzeGo, Option.some.injEq] at h
    subst h
    exact Or.inl hm
  | cons row rest ih =>
    intro acc res h t w hm
    rw [analyzeGo_cons] at h
    cases hA : row.accessType with
    | none => rw [hA] at h; exact absurd h (by simp)
    | some tv =>
      rw [hA] at h
      by_cases ht : rowTriggers row = true
      · rw [if_pos ht] at h
        rcases ih _ _ h t w hm with hacc | heq
        · rcases dictInsert_mem _ _ _ _ _ hacc with ⟨rfl, rfl⟩ | hacc2
          · exact Or.inr rfl
          · exact Or.inl hacc2
        · exact Or.inr heq
      · rw [if_neg ht] at h
        exact ih _ _ h t w hm

lemma analyzeGo_keysOnce (cand : List String) :
    ∀ (plan : List PlanRow) (acc : List (Option String × String))
      (res : List (Option String × String)),
      analyzeGo cand plan acc = some res → keysOnce acc → keysOnce res := by
  intro plan
  induction plan with
  | nil =>
    intro acc res h hacc
    simp only [analyzeGo, Option.some.injEq] at h
    subst h
    exact hacc
  | cons row rest ih =>
    intro acc res h hacc
    rw [analyzeGo_cons] at h
    cases hA : row.accessType with
    | none => rw [hA] at h; exact absurd h (by simp)
    | some tv =>
      rw [hA] at h
      by_cases ht : rowTriggers row = true
      · rw [if_pos ht] at h
        exact ih _ _ h (keysOnce_dictInsert _ _ _ hacc)
      · rw [if_neg ht] at h
        exact ih _ _ h hacc

/-! Claim theorems: the plan analyzer. -/

/-- Claim C1, counterexample.  A row with `accessType = "ALL"`, an
empty-but-present `possibleKeys` and a present `key` satisfies the
claim's trigger condition ("possibleKeys is absent/empty or key is
absent"), so the claim requires a suggestion for its table; the source
stores nothing for it (`possible_keys is None` is false and
`key is None` is false), returning the empty mapping. -/
theorem c1_counterexample :
    specTriggerC1 ⟨1, "SIMPLE", some "t", some "ALL", some [], some "idx", none, none, 100, ""⟩ ∧
    analyze_plan_and_suggest
      [⟨1, "SIMPLE", some "t", some "ALL", some [], some "idx", none, none, 100, ""⟩]
      "SELECT * FROM t WHERE a = 1" = some [] :=
  ⟨⟨⟨"ALL", rfl, rfl⟩, Or.inr (Or.inl rfl)⟩, by decide⟩

/-- Claim C1, amended: whenever `analyze_plan_and_suggest` returns a
mapping, that mapping holds an entry for a table if and only if some
plan row has that table, an access type that uppercases to `ALL`, and
`possibleKeys` absent or `key` absent.  (The amendment drops the
claim's "or empty" on `possibleKeys`: an empty-but-present
`possibleKeys` does not trigger; and a row only "causes no error" when
its access type is present, the success hypothesis covering that.) -/
theorem c1_amended :
    ∀ (plan : List PlanRow) (query : String) (res : List (Option String × String)),
      analyze_plan_and_suggest plan query = some res →
      ∀ t : Option String,
        (∃ w, (t, w) ∈ res) ↔ ∃ r, r ∈ plan ∧ r.table = t ∧ rowTriggers r = true := by
  intro plan query res h t
  have hk := analyzeGo_keys (extract_columns_from_where query) plan [] res h t
  simpa using hk

/-- Witness for `c1_amended` at a one-row full-scan plan. -/
theorem c1_amended_witness :
    ∃ w, ((some "orders", w) ∈
      [((some "orders" : Option String),
        "Consider adding an index on table 'orders' for columns: customer_id.")]) :=
  (c1_amended
    [⟨1, "SIMPLE", some "orders", some "ALL", none, none, none, none, 100, ""⟩]
    "SELECT * FROM orders WHERE customer_id = 1"
    [(some "orders", "Consider adding an index on table 'orders' for columns: customer_id.")]
    (by decide) (some "orders")).mpr
    ⟨⟨1, "SIMPLE", some "orders", some "ALL", none, none, none, none, 100, ""⟩,
      by decide, rfl, by decide⟩

/-- Claim C2, counterexample.  A row with `accessType = "ALL"` and
`key = "idx_customer"` present, but `possibleKeys` null, does get a
suggestion from the source (the disjunction `possible_keys is None or
key is None` holds through its first disjunct), contradicting the
claim's "no suggestion regardless of the value of possibleKeys". -/
theorem c2_counterexample :
    analyze_plan_and_suggest
      [⟨1, "SIMPLE", some "orders", some "ALL", none, some "idx_customer", none, none, 100, ""⟩]
      "SELECT * FROM orders WHERE customer_id = 1"
    = some [(some "orders",
        "Consider adding an index on table 'orders' for columns: customer_id.")] := by
  decide

/-- Claim C2, amended: a full-scan row whose `key` is present produces no
suggestion provided its `possibleKeys` is also present — such a row
leaves the suggestions state untouched.  (Stated for any present access
type: a non-`ALL` row is skipped anyway.) -/
theorem c2_amended (cand : List String) (row : PlanRow) (rest : List PlanRow)
    (acc : List (Option String × String))
    (hA : row.accessType.isSome = true)
    (hP : row.possibleKeys.isSome = true)
    (hK : row.key.isSome = true) :
    analyzeGo cand (row :: rest) acc = analyzeGo cand rest acc := by
  rw [analyzeGo_cons]
  cases h : row.accessType with
  | none => rw [h] at hA; simp at hA
  | some tv =>
    obtain ⟨pk, hpk⟩ := Option.isSome_iff_exists.mp hP
    obtain ⟨ky, hky⟩ := Option.isSome_iff_exists.mp hK
    have ht : rowTriggers row = false := by
      simp [rowTriggers, h, hpk, hky]
    rw [ht]
    simp

/-- Witness for `c2_amended`: a full-scan row with both `possibleKeys`
and `key` present contributes nothing. -/
theorem c2_amended_witness :
    analyzeGo []
      [⟨1, "SIMPLE", some "orders", some "ALL", some ["idx_customer"], some "idx_customer",
        none, none, 100, ""⟩] [] = analyzeGo [] [] [] :=
  c2_amended []
    ⟨1, "SIMPLE", some "orders", some "ALL", some ["idx_customer"], some "idx_customer",
      none, none, 100, ""⟩ [] [] rfl rfl rfl

/-- Claim C4 (confirmed): every entry the analyzer stores carries one of
the two message texts — the index suggestion naming the comma-joined
candidate columns when the extracted list is non-empty, the generic
WHERE-clause review otherwise. -/
theorem c4_suggestion_text :
    ∀ (plan : List PlanRow) (query : String) (res : List (Option String × String))
      (t : Option String) (w : String),
      analyze_plan_and_suggest plan query = some res → (t, w) ∈ res →
      (extract_columns_from_where query ≠ [] ∧
        w = "Consider adding an index on table '" ++ renderTable t ++ "' for columns: " ++
            String.intercalate ", " (extract_columns_from_where query) ++ ".") ∨
      (extract_columns_from_where query = [] ∧
        w = "Review the WHERE clause for table '" ++ renderTable t ++
            "' and consider adding appropriate indexes.") := by
  intro plan query res t w h hm
  have hv := analyzeGo_values (extract_columns_from_where query) plan [] res h t w hm
  simp only [List.not_mem_nil, false_or] at hv
  by_cases hc : extract_columns_from_where query = []
  · right
    refine ⟨hc, ?_⟩
    rw [hv]
    simp [suggestionFor, hc]
  · left
    refine ⟨hc, ?_⟩
    rw [hv]
    simp [suggestionFor, List.isEmpty_iff, hc]

/-- Witness for `c4_suggestion_text` at the spec's own example row. -/
theorem c4_witness :
    (extract_columns_from_where "SELECT * FROM orders WHERE customer_id = 1" ≠ [] ∧
      "Consider adding an index on table 'orders' for columns: customer_id." =
        "Consider adding an index on table '" ++ renderTable (some "orders") ++
          "' for columns: " ++
          String.intercalate ", "
            (extract_columns_from_where "SELECT * FROM orders WHERE customer_id = 1") ++ ".") ∨
    (extract_columns_from_where "SELECT * FROM orders WHERE customer_id = 1" = [] ∧
      "Consider adding an index on table 'orders' for columns: customer_id." =
        "Review the WHERE clause for table '" ++ renderTable (some "orders") ++
          "' and consider adding appropriate indexes.") :=
  c4_suggestion_text
    [⟨1, "SIMPLE", some "orders", some "ALL", none, none, none, none, 100, ""⟩]
    "SELECT * FROM orders WHERE customer_id = 1"
    [(some "orders", "Consider adding an index on table 'orders' for columns: customer_id.")]
    (some "orders") "Consider adding an index on table 'orders' for columns: customer_id."
    (by decide) (by decide)

/-- Claim C5 (confirmed): when some row (in particular, when two or
more rows) for a table triggers, the returned mapping holds exactly one
entry for that table, and its value is the message the last such row
produced — every triggering row for the table, the last included,
produces exactly `suggestionFor t (extract_columns_from_where query)`,
and a later store overwrites an earlier one in the dict. -/
theorem c5_last_write_wins :
    ∀ (plan : List PlanRow) (query : String) (res : List (Option String × String))
      (t : Option String),
      analyze_plan_and_suggest plan query = some res →
      (∃ r, r ∈ plan ∧ r.table = t ∧ rowTriggers r = true) →
      res.countP (fun e => decide (e.1 = t)) = 1 ∧
      ∀ w, (t, w) ∈ res → w = suggestionFor t (extract_columns_from_where query) := by
  intro plan query res t h htrig
  have hkeys := analyzeGo_keys (extract_columns_from_where query) plan [] res h t
  have hmem : ∃ w, (t, w) ∈ res := hkeys.mpr (Or.inr htrig)
  have honce : keysOnce res :=
    analyzeGo_keysOnce (extract_columns_from_where query) plan [] res h (by intro s; simp)
  obtain ⟨w, hw⟩ := hmem
  have h1 : 0 < res.countP (fun e => decide (e.1 = t)) :=
    List.countP_pos_iff.mpr ⟨(t, w), hw, by simp⟩
  have h2 := honce t
  refine ⟨by omega, ?_⟩
  intro w1 hw1
  have hv := analyzeGo_values (extract_columns_from_where query) plan [] res h t w1 hw1
  simpa using hv

/-- Witness for `c5_last_write_wins`: two triggering rows for `orders`
leave a single entry. -/
theorem c5_witness :
    ([((some "orders" : Option String),
        "Review the WHERE clause for table 'orders' and consider adding appropriate indexes.")]).countP
      (fun e => decide (e.1 = some "orders")) = 1 ∧
    ∀ w, ((some "orders" : Option String), w) ∈
        [((some "orders" : Option String),
          "Review the WHERE clause for table 'orders' and consider adding appropriate indexes.")] →
      w = suggestionFor (some "orders") (extract_columns_from_where "SELECT * FROM orders") :=
  c5_last_write_wins
    [⟨1, "SIMPLE", some "orders", some "ALL", none, none, none, none, 100, ""⟩,
     ⟨2, "SIMPLE", some "orders", some "all", none, none, none, none, 50, ""⟩]
    "SELECT * FROM orders"
    [(some "orders",
      "Review the WHERE clause for table 'orders' and consider adding appropriate indexes.")]
    (some "orders") (by decide)
    ⟨⟨1, "SIMPLE", some "orders", some "ALL", none, none, none, none, 100, ""⟩,
      by decide, rfl, by decide⟩

/-- Claim C6, counterexample.  A plan row whose access type is absent
(`None`) makes the source raise `AttributeError` at
`type_val.upper()` — modelled as `none` — so absence of `accessType` is
not "treated as no index available". -/
theorem c6_counterexample :
    analyze_plan_and_suggest
      [⟨1, "SIMPLE", some "t", none, none, none, none, none, 100, ""⟩] "SELECT 1" = none := by
  decide

/-- Claim C6, amended: `extract_columns_from_where` is total by
construction (every regex step of the source is non-raising), and for
every plan whose rows all carry an access type, the analyzer returns a
mapping without failing; absent `possibleKeys`/`key` are then handled as
"no index available".  A null or missing `accessType`, however, raises. -/
theorem c6_amended :
    ∀ (plan : List PlanRow) (query : String),
      (∀ r ∈ plan, r.accessType.isSome = true) →
      (analyze_plan_and_suggest plan query).isSome = true :=
  fun plan query h => analyzeGo_isSome (extract_columns_from_where query) plan [] h

/-- Witness for `c6_amended`: a plan mixing null `possibleKeys`/`key`
and a non-scan row analyzes without failure. -/
theorem c6_amended_witness :
    (analyze_plan_and_suggest
      [⟨1, "SIMPLE", some "t", some "ALL", none, none, none, none, 100, ""⟩,
       ⟨2, "SIMPLE", some "u", some "ref", none, some "PRIMARY", none, none, 10, ""⟩]
      "SELECT 1").isSome = true :=
  c6_amended
    ([⟨1, "SIMPLE", some "t", some "ALL", none, none, none, none, 100, ""⟩,
      ⟨2, "SIMPLE", some "u", some "ref", none, some "PRIMARY", none, none, 10, ""⟩] :
      List PlanRow)
    "SELECT 1" (by decide)

/-- Claim C10 (confirmed): a triggering row whose `table` is null still
records a suggestion, keyed by the null table, and the message text
renders the null as `None` (Python f-string formatting). -/
theorem c10_null_table :
    ∀ (plan : List PlanRow) (query : String) (res : List (Option String × String))
      (row : PlanRow),
      analyze_plan_and_suggest plan query = some res →
      row ∈ plan → row.table = none → rowTriggers row = true →
      ∃ w, (none, w) ∈ res ∧
        (w = "Consider adding an index on table '" ++ "None" ++ "' for columns: " ++
             String.intercalate ", " (extract_columns_from_where query) ++ "." ∨
         w = "Review the WHERE clause for table '" ++ "None" ++
             "' and consider adding appropriate indexes.") := by
  intro plan query res row h hmem htab htrig
  have hkeys := analyzeGo_keys (extract_columns_from_where query) plan [] res h none
  have hex : ∃ w, ((none : Option String), w) ∈ res :=
    hkeys.mpr (Or.inr ⟨row, hmem, htab, htrig⟩)
  obtain ⟨w, hw⟩ := hex
  refine ⟨w, hw, ?_⟩
  have hv := analyzeGo_values (extract_columns_from_where query) plan [] res h none w hw
  simp only [List.not_mem_nil, false_or] at hv
  rw [hv]
  by_cases hc : (extract_columns_from_where query).isEmpty
  · right
    simp [suggestionFor, hc, renderTable]
  · left
    simp [suggestionFor, hc, renderTable]

/-- Witness for `c10_null_table` at a one-row derived-table plan. -/
theorem c10_witness :
    ∃ w, ((none : Option String), w) ∈
        [((none : Option String),
          "Consider adding an index on table 'None' for columns: customer_id.")] ∧
      (w = "Consider adding an index on table '" ++ "None" ++ "' for columns: " ++
           String.intercalate ", "
             (extract_columns_from_where "SELECT * FROM orders WHERE customer_id = 1") ++ "." ∨
       w = "Review the WHERE clause for table '" ++ "None" ++
           "' and consider adding appropriate indexes.") :=
  c10_null_table
    [⟨1, "PRIMARY", none, some "ALL", none, none, none, none, 100, ""⟩]
    "SELECT * FROM orders WHERE customer_id = 1"
    [(none, "Consider adding an index on table 'None' for columns: customer_id.")]
    ⟨1, "PRIMARY", none, some "ALL", none, none, none, none, 100, ""⟩
    (by decide) (by decide) rfl (by decide)

/-! Claim theorems: reporting layer and periodic task. -/

/-- Claim C7 (confirmed): the displayed improvement is
`(before - after) / before * 100` for every pair of durations, and a
zero (falsy) "before" duration yields `0` instead of a division by
zero.  Durations are modelled as exact rationals. -/
theorem c7_improvement_formula :
    ∀ original_time optimized_time : ℚ,
      (original_time ≠ 0 →
        improvementPercent original_time optimized_time =
          (original_time - optimized_time) / original_time * 100) ∧
      (original_time = 0 → improvementPercent original_time optimized_time = 0) := by
  intro b a
  constructor
  · intro h
    simp [improvementPercent, h]
  · intro h
    simp [improvementPercent, h]

/-- Witness for `c7_improvement_formula` at concrete durations. -/
theorem c7_witness :
    improvementPercent 2 1 = (2 - 1) / 2 * 100 ∧ improvementPercent 0 5 = 0 :=
  ⟨(c7_improvement_formula 2 1).1 (by decide), (c7_improvement_formula 0 5).2 rfl⟩

/-- Claim C8 (confirmed): for every entry state and every choice of
which fallible operation raises, the `automated_task` trace starts a
transaction exactly when none is active, commits (and never rolls back)
when nothing raises, rolls back (and never commits) when any database
operation raises, and ends by closing the query cursor in every case.
Cursor creation and `rollback` are modelled as succeeding. -/
theorem c8_automated_task :
    ∀ inTxn f1 f2 f3 f4 f5 : Bool,
      (DbEv.txnStarted ∈ automated_task inTxn f1 f2 f3 f4 f5 ↔ inTxn = false) ∧
      ((f1 || f2 || f3 || f4 || f5) = false →
        DbEv.committed ∈ automated_task inTxn f1 f2 f3 f4 f5 ∧
        DbEv.rolledBack ∉ automated_task inTxn f1 f2 f3 f4 f5) ∧
      ((f1 || f2 || f3 || f4 || f5) = true →
        DbEv.rolledBack ∈ automated_task inTxn f1 f2 f3 f4 f5 ∧
        DbEv.committed ∉ automated_task inTxn f1 f2 f3 f4 f5) ∧
      (automated_task inTxn f1 f2 f3 f4 f5).getLast? = some DbEv.cursorClosed := by
  decide

/-- Witness for `c8_automated_task`: the all-success trace commits, a
failing first query rolls back, and an already-open transaction is not
reopened while the cursor still closes. -/
theorem c8_witness :
    DbEv.committed ∈ automated_task false false false false false false ∧
    DbEv.rolledBack ∈ automated_task false true false false false false ∧
    (automated_task true false false true false false).getLast? = some DbEv.cursorClosed :=
  ⟨((c8_automated_task false false false false false false).2.1 rfl).1,
   ((c8_automated_task false true false false false false).2.2.1 rfl).1,
   (c8_automated_task true false false true false false).2.2.2⟩

/-! Lemmas about the clause splitter and the fragment matcher, towards
claims C3 and C9. -/

lemma takeWhile_all (p : Char → Bool) (l : List Char) (h : ∀ c ∈ l, p c = true) :
    l.takeWhile p = l := by
  induction l with
  | nil => rfl
  | cons c t ih =>
    simp only [List.takeWhile_cons, h c (List.mem_cons_self _ _), if_pos]
    rw [ih fun c hc => h c (List.mem_cons_of_mem _ hc)]

lemma takeWhile_all_append (p : Char → Bool) (w : List Char) (b : Char) (t : List Char)
    (hw : ∀ c ∈ w, p c = true) (hb : p b = false) :
    (w ++ b :: t).takeWhile p = w := by
  induction w with
  | nil => simp [List.takeWhile_cons, hb]
  | cons c w1 ih =>
    simp only [List.cons_append, List.takeWhile_cons, hw c (List.mem_cons_self _ _), if_pos]
    rw [ih fun c hc => hw c (List.mem_cons_of_mem _ hc)]

lemma dropWhile_all_append (p : Char → Bool) (w : List Char) (b : Char) (t : List Char)
    (hw : ∀ c ∈ w, p c = true) (hb : p b = false) :
    (w ++ b :: t).dropWhile p = b :: t := by
  induction w with
  | nil => simp [List.dropWhile_cons, hb]
  | cons c w1 ih =>
    simp only [List.cons_append, List.dropWhile_cons, hw c (List.mem_cons_self _ _), if_pos]
    exact ih fun c hc => hw c (List.mem_cons_of_mem _ hc)

lemma not_space_of_word (c : Char) (h : isWordChar c = true) : isPySpace c = false := by
  cases hs : isPySpace c with
  | false => rfl
  | true =>
    simp only [isPySpace, Bool.or_eq_true, beq_iff_eq] at hs
    rcases hs with ((((rfl | rfl) | rfl) | rfl) | rfl) | rfl <;> simp [isWordChar] at h

/-- One uniform step of `splitAndOr` on a non-empty list. -/
lemma splitAndOr_step (prev : Bool) (acc : List Char) (c : Char) (t : List Char) :
    splitAndOr prev acc (c :: t) =
      if andFire prev (c :: t) then acc.reverse :: splitAndOr true [] (t.drop 2)
      else if orFire prev (c :: t) then acc.reverse :: splitAndOr true [] (t.drop 1)
      else splitAndOr (isWordChar c) (c :: acc) t := by
  match t with
  | [] => simp [splitAndOr, andFire, orFire]
  | [n] =>
    by_cases h : (!prev && c.toLower == 'o' && n.toLower == 'r') = true
    · simp [splitAndOr, andFire, orFire, rightBd, h]
    · simp [splitAndOr, andFire, orFire, rightBd, h]
  | n :: d :: t2 =>
    simp only [andFire, orFire, splitAndOr, List.drop_succ_cons, List.drop_zero]

/-- Scanning one character that is not a word character and cannot start
`AND` or `OR`: the splitter just moves it to the accumulator, the next
position sitting at a word boundary. -/
lemma splitAndOr_nonword (prev : Bool) (acc : List Char) (c : Char) (t : List Char)
    (hw : isWordChar c = false) (ha : (c.toLower == 'a') = false)
    (ho : (c.toLower == 'o') = false) :
    splitAndOr prev acc (c :: t) = splitAndOr false (c :: acc) t := by
  rw [splitAndOr_step]
  have hA : andFire prev (c :: t) = false := by
    rcases t with _ | ⟨n, _ | ⟨d, t2⟩⟩
    · rfl
    · rfl
    · simp [andFire, ha]
  have hO : orFire prev (c :: t) = false := by
    rcases t with _ | ⟨n, t2⟩
    · rfl
    · simp [orFire, ho]
  rw [hA, hO, hw]
  simp

lemma andFire_prev_true (l : List Char) : andFire true l = false := by
  rcases l with _ | ⟨a, _ | ⟨b, _ | ⟨c, t⟩⟩⟩
  · rfl
  · rfl
  · rfl
  · simp [andFire]

lemma orFire_prev_true (l : List Char) : orFire true l = false := by
  rcases l with _ | ⟨a, _ | ⟨b, t⟩⟩
  · rfl
  · rfl
  · simp [orFire]

/-- Scanning a word (maximal run of word characters) that is not `AND`
or `OR` and is followed by a space or the end of the text: no split
fires inside it, and the scanner emerges on its far side with the
word-character state set. -/
lemma splitAndOr_word :
    ∀ (w : List Char), w ≠ [] → (∀ c ∈ w, isWordChar c = true) →
    ∀ (t acc : List Char) (prev : Bool),
      (t = [] ∨ ∃ t2, t = ' ' :: t2) →
      (prev = true ∨ (lowerL w ≠ ['a', 'n', 'd'] ∧ lowerL w ≠ ['o', 'r'])) →
      splitAndOr prev acc (w ++ t) = splitAndOr true (w.reverse ++ acc) t := by
  intro w
  induction w with
  | nil => intro h; exact absurd rfl h
  | cons c w1 ih =>
    intro _ hall t acc prev ht hno
    have hcw : isWordChar c = true := hall c (List.mem_cons_self _ _)
    have hA : andFire prev (c :: (w1 ++ t)) = false := by
      cases prev with
      | true => exact andFire_prev_true _
      | false =>
        rcases hno with h | ⟨hnand, hnor⟩
        · exact absurd h (by simp)
        · rcases w1 with _ | ⟨c2, w2⟩
          · rcases ht with rfl | ⟨t2, rfl⟩
            · rfl
            · rcases t2 with _ | ⟨y, t3⟩
              · rfl
              · have hs : (Char.toLower ' ' == 'n') = false := by decide
                simp [andFire, hs]
          · rcases w2 with _ | ⟨c3, w3⟩
            · rcases ht with rfl | ⟨t2, rfl⟩
              · rfl
              · have hs : (Char.toLower ' ' == 'd') = false := by decide
                simp [andFire, hs]
            · rcases w3 with _ | ⟨z, w4⟩
              · by_cases h1 : c.toLower = 'a'
                · by_cases h2 : c2.toLower = 'n'
                  · by_cases h3 : c3.toLower = 'd'
                    · exact absurd (by simp [lowerL, h1, h2, h3]) hnand
                    · have h3b : (c3.toLower == 'd') = false := by simp [h3]
                      simp [andFire, h3b]
                  · have h2b : (c2.toLower == 'n') = false := by simp [h2]
                    simp [andFire, h2b]
                · have h1b : (c.toLower == 'a') = false := by simp [h1]
                  simp [andFire, h1b]
              · have hz : isWordChar z = true := hall z (by simp)
                simp [andFire, rightBd, hz]
    have hO : orFire prev (c :: (w1 ++ t)) = false := by
      cases prev with
      | true => exact orFire_prev_true _
      | false =>
        rcases hno with h | ⟨hnand, hnor⟩
        · exact absurd h (by simp)
        · rcases w1 with _ | ⟨c2, w2⟩
          · rcases ht with rfl | ⟨t2, rfl⟩
            · rfl
            · have hs : (Char.toLower ' ' == 'r') = false := by decide
              simp [orFire, hs]
          · rcases w2 with _ | ⟨c3, w3⟩
            · by_cases h1 : c.toLower = 'o'
              · by_cases h2 : c2.toLower = 'r'
                · exact absurd (by simp [lowerL, h1, h2]) hnor
                · have h2b : (c2.toLower == 'r') = false := by simp [h2]
                  simp [orFire, h2b]
              · have h1b : (c.toLower == 'o') = false := by simp [h1]
                simp [orFire, h1b]
            · have hz : isWordChar c3 = true := hall c3 (by simp)
              simp [orFire, rightBd, hz]
    rw [show (c :: w1) ++ t = c :: (w1 ++ t) from rfl, splitAndOr_step, hA, hO]
    simp only [Bool.false_eq_true, if_false, hcw]
    rcases w1 with _ | ⟨c2, w2⟩
    · simp
    · rw [ih (by simp) (fun x hx => hall x (List.mem_cons_of_mem _ hx)) t (c :: acc) true ht
        (Or.inl rfl)]
      congr 1
      simp

lemma wfIdent_spec (w : List Char) (h : wfIdent w = true) :
    (∃ c t, w = c :: t ∧ (c.isAlpha || c == '_') = true) ∧
    (∀ c ∈ w, isWordChar c = true) ∧
    lowerL w ≠ ['a', 'n', 'd'] ∧ lowerL w ≠ ['o', 'r'] := by
  rcases w with _ | ⟨c, t⟩
  · exact absurd h (by simp [wfIdent])
  · simp only [wfIdent, Bool.and_eq_true, List.all_eq_true, Bool.not_eq_true',
      beq_eq_false_iff_ne, ne_eq] at h
    obtain ⟨⟨⟨h1, h2⟩, h3⟩, h4⟩ := h
    exact ⟨⟨c, t, rfl, h1⟩, h2, h3, h4⟩

lemma wfValue_spec (v : List Char) (h : wfValue v = true) :
    v ≠ [] ∧ (∀ c ∈ v, isWordChar c = true) ∧
    lowerL v ≠ ['a', 'n', 'd'] ∧ lowerL v ≠ ['o', 'r'] := by
  simp only [wfValue, Bool.and_eq_true, List.all_eq_true, Bool.not_eq_true',
    beq_eq_false_iff_ne, ne_eq] at h
  obtain ⟨⟨⟨h1, h2⟩, h3⟩, h4⟩ := h
  refine ⟨?_, h2, h3, h4⟩
  intro hv0
  subst hv0
  simp at h1

lemma wfOp_spec (op : List Char) (h : wfOp op = true) :
    op = ['='] ∨ op = ['>'] ∨ op = ['<'] ∨ op = ['>', '='] ∨ op = ['<', '='] := by
  simp only [wfOp, Bool.or_eq_true, beq_iff_eq] at h
  tauto

lemma wfPred_spec (p : SimplePred) (h : wfPred p = true) :
    wfIdent p.ident = true ∧ wfOp p.op = true ∧ wfValue p.value = true := by
  simpa [wfPred, Bool.and_eq_true, and_assoc] using h

lemma word_of_identHead (c : Char) (h : (c.isAlpha || c == '_') = true) :
    isWordChar c = true := by
  rcases Bool.or_eq_true _ _ |>.mp h with h1 | h1
  · simp [isWordChar, Char.isAlphanum, h1]
  · simp [isWordChar, h1]

lemma word_bne_newline (c : Char) (h : isWordChar c = true) : (c != '\n') = true := by
  have hne : c ≠ '\n' := by
    intro he
    subst he
    simp [isWordChar, Char.isAlphanum, Char.isAlpha, Char.isDigit, Char.isUpper,
      Char.isLower] at h
  simpa [bne_iff_ne] using hne

/-! Lemmas about `strip`. -/

lemma dropWhile_all_nil (p : Char → Bool) (l : List Char) (h : ∀ x ∈ l, p x = true) :
    l.dropWhile p = [] := by
  induction l with
  | nil => rfl
  | cons c t ih =>
    rw [List.dropWhile_cons, if_pos (h c (List.mem_cons_self _ _))]
    exact ih fun x hx => h x (List.mem_cons_of_mem _ hx)

lemma all_of_dropWhile_nil (p : Char → Bool) (l : List Char) (h : l.dropWhile p = []) :
    ∀ x ∈ l, p x = true := by
  induction l with
  | nil => intro x hx; exact absurd hx (List.not_mem_nil _)
  | cons c t ih =>
    rw [List.dropWhile_cons] at h
    by_cases hc : p c = true
    · rw [if_pos hc] at h
      intro x hx
      rcases List.mem_cons.mp hx with rfl | hx2
      · exact hc
      · exact ih h x hx2
    · rw [if_neg hc] at h
      exact absurd h (by simp)

lemma dropWhile_append_left (p : Char → Bool) (l1 l2 : List Char)
    (h : l1.dropWhile p ≠ []) :
    (l1 ++ l2).dropWhile p = l1.dropWhile p ++ l2 := by
  induction l1 with
  | nil => exact absurd rfl h
  | cons c t ih =>
    by_cases hc : p c = true
    · have h2 : (c :: t).dropWhile p = t.dropWhile p := by
        rw [List.dropWhile_cons, if_pos hc]
      rw [h2] at h
      rw [List.cons_append, List.dropWhile_cons, if_pos hc, h2, ih h]
    · have h2 : (c :: t).dropWhile p = c :: t := by
        rw [List.dropWhile_cons, if_neg hc]
      rw [List.cons_append, List.dropWhile_cons, if_neg hc, h2, List.cons_append]

lemma strip_cons_space (l : List Char) : strip (' ' :: l) = strip l := by
  have h : isPySpace ' ' = true := by decide
  simp [strip, List.dropWhile_cons, h]

lemma strip_append_space (l : List Char) : strip (l ++ [' ']) = strip l := by
  unfold strip
  rcases hdw : l.dropWhile isPySpace with _ | ⟨c, t⟩
  · have h2 : (l ++ [' ']).dropWhile isPySpace = [] := by
      apply dropWhile_all_nil
      intro x hx
      rcases List.mem_append.mp hx with hx1 | hx1
      · exact all_of_dropWhile_nil _ _ hdw x hx1
      · rcases List.mem_singleton.mp hx1 with rfl
        decide
    rw [h2]
  · have h2 : (l ++ [' ']).dropWhile isPySpace = (c :: t) ++ [' '] := by
      rw [dropWhile_append_left _ _ _ (by rw [hdw]; simp), hdw]
    rw [h2]
    have h3 : ((c :: t) ++ [' ']).reverse = ' ' :: (c :: t).reverse := by simp
    rw [h3, List.dropWhile_cons, if_pos (by decide)]

lemma strip_no_space (l : List Char) (h1 : l.dropWhile isPySpace = l)
    (h2 : l.reverse.dropWhile isPySpace = l.reverse) : strip l = l := by
  simp [strip, h1, h2]

lemma dropWhile_word_head (v rest : List Char) (hvne : v ≠ [])
    (hvw : ∀ c ∈ v, isWordChar c = true) :
    (v.reverse ++ rest).dropWhile isPySpace = v.reverse ++ rest := by
  rcases hv : v.reverse with _ | ⟨vc, vt⟩
  · exact absurd (by simpa using hv) hvne
  · have hmem : vc ∈ v := List.mem_reverse.mp (hv ▸ List.mem_cons_self vc vt)
    have hsp : isPySpace vc = false := not_space_of_word vc (hvw vc hmem)
    rw [List.cons_append, List.dropWhile_cons, if_neg (by simp [hsp])]

lemma renderPred_shape (p : SimplePred) (c : Char) (it : List Char)
    (hid : p.ident = c :: it) :
    renderPred p = c :: ((it ++ (' ' :: p.op)) ++ (' ' :: p.value)) := by
  simp [renderPred, hid]

lemma renderPred_reverse (p : SimplePred) :
    (renderPred p).reverse =
      p.value.reverse ++ (' ' :: (p.op.reverse ++ (' ' :: p.ident.reverse))) := by
  simp [renderPred, List.append_assoc]

lemma strip_renderPred (p : SimplePred) (hp : wfPred p = true) :
    strip (renderPred p) = renderPred p := by
  obtain ⟨hi, ho, hv⟩ := wfPred_spec p hp
  obtain ⟨⟨c, it, hid, hc⟩, hiw, _, _⟩ := wfIdent_spec _ hi
  obtain ⟨hvne, hvw, _, _⟩ := wfValue_spec _ hv
  apply strip_no_space
  · rw [renderPred_shape p c it hid, List.dropWhile_cons,
      if_neg (by simp [not_space_of_word c (hiw c (hid ▸ List.mem_cons_self c it))])]
  · rw [renderPred_reverse]
    exact dropWhile_word_head p.value _ hvne hvw

lemma matchColumn_renderPred (p : SimplePred) (hp : wfPred p = true) :
    matchColumn (renderPred p) = some p.ident := by
  obtain ⟨hi, ho, hv⟩ := wfPred_spec p hp
  obtain ⟨⟨c, it, hid, hc⟩, hiw, _, _⟩ := wfIdent_spec _ hi
  have hitw : ∀ x ∈ it, isWordChar x = true :=
    fun x hx => hiw x (hid ▸ List.mem_cons_of_mem _ hx)
  have hdw : (renderPred p).dropWhile isPySpace = renderPred p := by
    rw [renderPred_shape p c it hid, List.dropWhile_cons,
      if_neg (by simp [not_space_of_word c (hiw c (hid ▸ List.mem_cons_self c it))])]
  have hrest : (it ++ (' ' :: p.op)) ++ (' ' :: p.value) =
      it ++ (' ' :: (p.op ++ (' ' :: p.value))) := by
    simp [List.append_assoc]
  have htake : ((it ++ (' ' :: p.op)) ++ (' ' :: p.value)).takeWhile isWordChar = it := by
    rw [hrest]
    exact takeWhile_all_append _ _ _ _ hitw (by decide)
  have hdrop : ((it ++ (' ' :: p.op)) ++ (' ' :: p.value)).dropWhile isWordChar =
      ' ' :: (p.op ++ (' ' :: p.value)) := by
    rw [hrest]
    exact dropWhile_all_append _ _ _ _ hitw (by decide)
  have hrest2 : (((it ++ (' ' :: p.op)) ++ (' ' :: p.value)).dropWhile
      isWordChar).dropWhile isPySpace = p.op ++ (' ' :: p.value) := by
    rw [hdrop, List.dropWhile_cons, if_pos (by decide)]
    rcases wfOp_spec _ ho with hop | hop | hop | hop | hop
    · rw [hop]; simp [List.dropWhile_cons, (by decide : isPySpace '=' = false)]
    · rw [hop]; simp [List.dropWhile_cons, (by decide : isPySpace '>' = false)]
    · rw [hop]; simp [List.dropWhile_cons, (by decide : isPySpace '<' = false)]
    · rw [hop]; simp [List.dropWhile_cons, (by decide : isPySpace '>' = false)]
    · rw [hop]; simp [List.dropWhile_cons, (by decide : isPySpace '<' = false)]
  have hophead : matchOpHead (p.op ++ (' ' :: p.value)) = true := by
    rcases wfOp_spec _ ho with hop | hop | hop | hop | hop <;>
      simp [hop, matchOpHead]
  rw [matchColumn, hdw, renderPred_shape p c it hid]
  rw [show matchColumnCore (c :: ((it ++ (' ' :: p.op)) ++ (' ' :: p.value))) =
      if c.isAlpha || c == '_' then
        if matchOpHead ((((it ++ (' ' :: p.op)) ++ (' ' :: p.value)).dropWhile
            isWordChar).dropWhile isPySpace) then
          some (c :: ((it ++ (' ' :: p.op)) ++ (' ' :: p.value)).takeWhile isWordChar)
        else none
      else none from rfl]
  rw [hrest2, htake, if_pos hc, if_pos hophead, hid]

lemma splitAndOr_opchars (op : List Char) (hop : wfOp op = true)
    (acc rest : List Char) (prev : Bool) :
    splitAndOr prev acc (op ++ rest) = splitAndOr false (op.reverse ++ acc) rest := by
  rcases wfOp_spec _ hop with h | h | h | h | h <;> subst h
  · rw [List.cons_append, List.nil_append,
      splitAndOr_nonword _ _ _ _ (by decide) (by decide) (by decide)]
    rfl
  · rw [List.cons_append, List.nil_append,
      splitAndOr_nonword _ _ _ _ (by decide) (by decide) (by decide)]
    rfl
  · rw [List.cons_append, List.nil_append,
      splitAndOr_nonword _ _ _ _ (by decide) (by decide) (by decide)]
    rfl
  · rw [List.cons_append, List.cons_append, List.nil_append,
      splitAndOr_nonword _ _ _ _ (by decide) (by decide) (by decide),
      splitAndOr_nonword _ _ _ _ (by decide) (by decide) (by decide)]
    rfl
  · rw [List.cons_append, List.cons_append, List.nil_append,
      splitAndOr_nonword _ _ _ _ (by decide) (by decide) (by decide),
      splitAndOr_nonword _ _ _ _ (by decide) (by decide) (by decide)]
    rfl

/-- Scanning a space followed by a whole well-formed predicate: no split
fires, the predicate lands in the accumulator. -/
lemma scan_space_pred (p : SimplePred) (hp : wfPred p = true)
    (T acc : List Char) (prev : Bool) (hT : T = [] ∨ ∃ t2, T = ' ' :: t2) :
    splitAndOr prev acc (' ' :: (renderPred p ++ T)) =
      splitAndOr true ((renderPred p).reverse ++ (' ' :: acc)) T := by
  obtain ⟨hi, ho, hv⟩ := wfPred_spec p hp
  obtain ⟨⟨c, it, hid, hc⟩, hiw, hina, hino⟩ := wfIdent_spec _ hi
  obtain ⟨hvne, hvw, hvna, hvno⟩ := wfValue_spec _ hv
  rw [splitAndOr_nonword _ _ _ _ (by decide) (by decide) (by decide)]
  have hre : renderPred p ++ T = p.ident ++ (' ' :: (p.op ++ (' ' :: (p.value ++ T)))) := by
    simp [renderPred, List.append_assoc]
  rw [hre]
  rw [splitAndOr_word p.ident (by rw [hid]; simp) hiw _ _ _
    (Or.inr ⟨p.op ++ (' ' :: (p.value ++ T)), rfl⟩) (Or.inr ⟨hina, hino⟩)]
  rw [splitAndOr_nonword _ _ _ _ (by decide) (by decide) (by decide)]
  rw [splitAndOr_opchars p.op ho _ _ _]
  rw [splitAndOr_nonword _ _ _ _ (by decide) (by decide) (by decide)]
  rw [splitAndOr_word p.value hvne hvw _ _ _ hT (Or.inr ⟨hvna, hvno⟩)]
  congr 1
  rw [renderPred_reverse]
  simp [List.append_assoc]

/-- Scanning a joining keyword with its two spaces: the split fires,
emitting the accumulated fragment (with its trailing space) and starting
a fresh fragment at the space after the keyword. -/
lemma scan_sep (b : Bool) (rest acc : List Char) (prev : Bool) :
    splitAndOr prev acc (renderSep b ++ rest) =
      (acc.reverse ++ [' ']) :: splitAndOr true [] (' ' :: rest) := by
  cases b
  · rw [show renderSep false ++ rest = ' ' :: ('O' :: 'R' :: (' ' :: rest)) from rfl]
    rw [splitAndOr_nonword _ _ _ _ (by decide) (by decide) (by decide)]
    rw [splitAndOr_step]
    have hA : andFire false ('O' :: 'R' :: (' ' :: rest)) = false := by
      simp [andFire, (by decide : (Char.toLower 'O' == 'a') = false)]
    have hO : orFire false ('O' :: 'R' :: (' ' :: rest)) = true := by
      simp [orFire, rightBd, (by decide : (Char.toLower 'O' == 'o') = true),
        (by decide : (Char.toLower 'R' == 'r') = true),
        (by decide : isWordChar ' ' = false)]
    rw [hA, hO]
    simp
  · rw [show renderSep true ++ rest = ' ' :: ('A' :: 'N' :: 'D' :: (' ' :: rest)) from rfl]
    rw [splitAndOr_nonword _ _ _ _ (by decide) (by decide) (by decide)]
    rw [splitAndOr_step]
    have hA : andFire false ('A' :: 'N' :: 'D' :: (' ' :: rest)) = true := by
      simp [andFire, rightBd, (by decide : (Char.toLower 'A' == 'a') = true),
        (by decide : (Char.toLower 'N' == 'n') = true),
        (by decide : (Char.toLower 'D' == 'd') = true),
        (by decide : isWordChar ' ' = false)]
    rw [hA]
    simp

/-- The splitter cuts a rendered clause into exactly its expected
fragments. -/
lemma splitAndOr_renderClause :
    ∀ (ps : List (Bool × SimplePred)) (p : SimplePred) (prev : Bool),
      wfPred p = true → (∀ x ∈ ps, wfPred x.2 = true) →
      splitAndOr prev [] (' ' :: (renderPred p ++ renderTail ps)) = expectedParts p ps := by
  intro ps
  induction ps with
  | nil =>
    intro p prev hp _
    rw [show renderTail [] = [] from rfl, scan_space_pred p hp [] [] prev (Or.inl rfl)]
    simp [splitAndOr, expectedParts]
  | cons bq ps1 ih =>
    obtain ⟨b, q⟩ := bq
    intro p prev hp hps
    rw [show renderTail ((b, q) :: ps1) = renderSep b ++ (renderPred q ++ renderTail ps1)
      from by simp [renderTail, List.append_assoc]]
    rw [scan_space_pred p hp (renderSep b ++ (renderPred q ++ renderTail ps1)) [] prev
      (Or.inr (by cases b <;> exact ⟨_, rfl⟩))]
    rw [scan_sep b _ _ _]
    rw [ih q true (hps (b, q) (List.mem_cons_self _ _))
      (fun x hx => hps x (List.mem_cons_of_mem _ hx))]
    rw [show expectedParts p ((b, q) :: ps1) =
      ((' ' :: renderPred p) ++ [' ']) :: expectedParts q ps1 from rfl]
    congr 1
    simp

lemma matchColumn_strip_part (p : SimplePred) (hp : wfPred p = true) :
    matchColumn (strip (' ' :: renderPred p)) = some p.ident := by
  rw [strip_cons_space, strip_renderPred p hp, matchColumn_renderPred p hp]

lemma matchColumn_strip_part_sp (p : SimplePred) (hp : wfPred p = true) :
    matchColumn (strip ((' ' :: renderPred p) ++ [' '])) = some p.ident := by
  rw [strip_append_space, strip_cons_space, strip_renderPred p hp, matchColumn_renderPred p hp]

/-- Matching every expected fragment yields exactly the identifiers, in
order. -/
lemma filterMap_expectedParts :
    ∀ (ps : List (Bool × SimplePred)) (p : SimplePred),
      wfPred p = true → (∀ x ∈ ps, wfPred x.2 = true) →
      (expectedParts p ps).filterMap (fun part => matchColumn (strip part)) =
        p.ident :: ps.map (fun x => x.2.ident) := by
  intro ps
  induction ps with
  | nil =>
    intro p hp _
    simp [expectedParts, List.filterMap_cons, matchColumn_strip_part p hp]
  | cons bq ps1 ih =>
    obtain ⟨b, q⟩ := bq
    intro p hp hps
    rw [show expectedParts p ((b, q) :: ps1) =
      ((' ' :: renderPred p) ++ [' ']) :: expectedParts q ps1 from rfl]
    rw [List.filterMap_cons, matchColumn_strip_part_sp p hp]
    rw [ih q (hps (b, q) (List.mem_cons_self _ _))
      (fun x hx => hps x (List.mem_cons_of_mem _ hx))]
    simp

lemma renderPred_no_newline (p : SimplePred) (hp : wfPred p = true) :
    ∀ c ∈ renderPred p, (c != '\n') = true := by
  obtain ⟨hi, ho, hv⟩ := wfPred_spec p hp
  obtain ⟨_, hiw, _, _⟩ := wfIdent_spec _ hi
  obtain ⟨_, hvw, _, _⟩ := wfValue_spec _ hv
  intro c hcm
  simp only [renderPred, List.mem_append, List.mem_cons] at hcm
  rcases hcm with (hc1 | rfl | hc1) | rfl | hc1
  · exact word_bne_newline c (hiw c hc1)
  · decide
  · rcases wfOp_spec _ ho with hop | hop | hop | hop | hop <;>
      · rw [hop] at hc1
        fin_cases hc1 <;> decide
  · decide
  · exact word_bne_newline c (hvw c hc1)

lemma renderTail_no_newline :
    ∀ (ps : List (Bool × SimplePred)), (∀ x ∈ ps, wfPred x.2 = true) →
      ∀ c ∈ renderTail ps, (c != '\n') = true := by
  intro ps
  induction ps with
  | nil => intro _ c hc; exact absurd hc (List.not_mem_nil _)
  | cons bq ps1 ih =>
    obtain ⟨b, q⟩ := bq
    intro hps c hc
    simp only [renderTail, List.mem_append] at hc
    rcases hc with (hc1 | hc1) | hc1
    · cases b
      · rw [show renderSep false = [' ', 'O', 'R', ' '] from rfl] at hc1
        fin_cases hc1 <;> decide
      · rw [show renderSep true = [' ', 'A', 'N', 'D', ' '] from rfl] at hc1
        fin_cases hc1 <;> decide
    · exact renderPred_no_newline q (hps (b, q) (List.mem_cons_self _ _)) c hc1
    · exact ih (fun x hx => hps x (List.mem_cons_of_mem _ hx)) c hc1

lemma renderClause_no_newline (p : SimplePred) (ps : List (Bool × SimplePred))
    (hp : wfPred p = true) (hps : ∀ x ∈ ps, wfPred x.2 = true) :
    ∀ c ∈ renderClause p ps, (c != '\n') = true := by
  intro c hc
  simp only [renderClause, List.mem_cons, List.mem_append] at hc
  rcases hc with rfl | hc1 | hc1
  · decide
  · exact renderPred_no_newline p hp c hc1
  · exact renderTail_no_newline ps hps c hc1

/-- A successful `searchWhere` pinpoints a whole-word occurrence of
`WHERE` (with the incoming boundary state justified). -/
lemma searchWhere_occurs :
    ∀ (l : List Char) (prev : Bool) (r : List Char),
      searchWhere prev l = some r →
      ∃ i, startsWithWhereWord (l.drop i) = true ∧
        (i = 0 → prev = false) ∧
        (∀ j, i = j + 1 → ∃ c t, l.drop j = c :: t ∧ isWordChar c = false) := by
  intro l
  induction l with
  | nil => intro prev r h; exact absurd h (by simp [searchWhere])
  | cons c rest ih =>
    intro prev r h
    rw [searchWhere] at h
    by_cases hfire : (!prev && startsWithWhereWord (c :: rest)) = true
    · refine ⟨0, ?_, ?_, ?_⟩
      · simpa using (Bool.and_eq_true _ _ |>.mp hfire).2
      · intro _
        have := (Bool.and_eq_true _ _ |>.mp hfire).1
        simpa using this
      · intro j hj; exact absurd hj (by omega)
    · rw [if_neg hfire] at h
      obtain ⟨i1, h1, h2, h3⟩ := ih (isWordChar c) r h
      refine ⟨i1 + 1, ?_, ?_, ?_⟩
      · simpa using h1
      · intro hcontra; exact absurd hcontra (by omega)
      · intro j hj
        have hji : j = i1 := by omega
        rw [hji]
        rcases i1 with _ | j1
        · exact ⟨c, rest, rfl, h2 rfl⟩
        · obtain ⟨c1, t1, ht1, hw1⟩ := h3 j1 rfl
          exact ⟨c1, t1, ht1, hw1⟩

/-! Claim theorems: the WHERE-clause column extractor. -/

/-- Claim C3 (confirmed): for a query whose filter clause — the text
standing after the `WHERE` keyword found by the (case-insensitive,
whole-word, leftmost) search — consists of well-formed simple predicates
`column OP value` joined by `AND`/`OR`, the extractor returns exactly the
column identifiers in left-to-right order, duplicates included; and for
a query in which the keyword occurs nowhere (no whole-word
case-insensitive occurrence at any position), it returns the empty
list. -/
theorem c3_extract_columns :
    (∀ (q : String) (rest : List Char) (p : SimplePred) (ps : List (Bool × SimplePred)),
      searchWhere false q.toList = some rest →
      rest = renderClause p ps →
      wfPred p = true → (∀ x ∈ ps, wfPred x.2 = true) →
      extract_columns_from_where q =
        (p.ident :: ps.map (fun x => x.2.ident)).map (fun cs => String.mk cs)) ∧
    (∀ q : String, (¬ ∃ i, whereOccursAt q.toList i) →
      extract_columns_from_where q = []) := by
  constructor
  · intro q rest p ps hfind hrest hp hps
    subst hrest
    rw [extract_columns_from_where, hfind]
    show ((splitAndOr false []
        ((renderClause p ps).takeWhile (fun c => c != '\n'))).filterMap
        (fun part => matchColumn (strip part))).map (fun cs => String.mk cs) = _
    rw [takeWhile_all _ _ (renderClause_no_newline p ps hp hps)]
    rw [show renderClause p ps = ' ' :: (renderPred p ++ renderTail ps) from rfl]
    rw [splitAndOr_renderClause ps p false hp hps]
    rw [filterMap_expectedParts ps p hp hps]
  · intro q hno
    cases hs : searchWhere false q.toList with
    | none => rw [extract_columns_from_where, hs]; rfl
    | some r =>
      exfalso
      obtain ⟨i, h1, h2, h3⟩ := searchWhere_occurs q.toList false r hs
      apply hno
      refine ⟨i, h1, ?_⟩
      rcases i with _ | j
      · exact Or.inl rfl
      · obtain ⟨c, t, ht, hw⟩ := h3 j rfl
        exact Or.inr ⟨j, c, t, rfl, ht, hw⟩

/-- Witness for `c3_extract_columns`: the clause `a = 1 AND b > 2` of a
concrete query yields `["a", "b"]`, and a query without the keyword
yields `[]`. -/
theorem c3_witness :
    extract_columns_from_where "SELECT * FROM t WHERE a = 1 AND b > 2" =
      (((⟨['a'], ['='], ['1']⟩ : SimplePred).ident ::
        ([(true, (⟨['b'], ['>'], ['2']⟩ : SimplePred))].map (fun x => x.2.ident))).map
          (fun cs => String.mk cs)) ∧
    extract_columns_from_where "SELECT 1" = [] := by
  constructor
  · exact c3_extract_columns.1 "SELECT * FROM t WHERE a = 1 AND b > 2"
      (renderClause ⟨['a'], ['='], ['1']⟩ [(true, ⟨['b'], ['>'], ['2']⟩)])
      ⟨['a'], ['='], ['1']⟩ [(true, ⟨['b'], ['>'], ['2']⟩)]
      (by decide) rfl (by decide) (by decide)
  · apply c3_extract_columns.2
    rintro ⟨i, h1, h2⟩
    rcases Nat.lt_or_ge i 8 with hlt | hge
    · interval_cases i <;> simp [startsWithWhereWord] at h1
    · rw [List.drop_eq_nil_of_le (by simpa using hge)] at h1
      exact absurd h1 (by decide)

/-- Claim C9 (confirmed): the extractor examines only the clause text up
to the first newline — when the text after `WHERE` is a rendered clause,
a newline, and arbitrary further text, the further text (whatever
predicates it contains) contributes nothing. -/
theorem c9_newline_truncation :
    ∀ (q : String) (rest more : List Char) (p : SimplePred)
      (ps : List (Bool × SimplePred)),
      searchWhere false q.toList = some rest →
      rest = renderClause p ps ++ '\n' :: more →
      wfPred p = true → (∀ x ∈ ps, wfPred x.2 = true) →
      extract_columns_from_where q =
        (p.ident :: ps.map (fun x => x.2.ident)).map (fun cs => String.mk cs) := by
  intro q rest more p ps hfind hrest hp hps
  subst hrest
  rw [extract_columns_from_where, hfind]
  show ((splitAndOr false []
      ((renderClause p ps ++ '\n' :: more).takeWhile (fun c => c != '\n'))).filterMap
      (fun part => matchColumn (strip part))).map (fun cs => String.mk cs) = _
  rw [takeWhile_all_append _ _ _ _ (renderClause_no_newline p ps hp hps) (by decide)]
  rw [show renderClause p ps = ' ' :: (renderPred p ++ renderTail ps) from rfl]
  rw [splitAndOr_renderClause ps p false hp hps]
  rw [filterMap_expectedParts ps p hp hps]

/-- Witness for `c9_newline_truncation`: in a two-line WHERE clause the
predicate after the newline is ignored, though the line holds a
well-formed predicate `b = 2`. -/
theorem c9_witness :
    extract_columns_from_where "SELECT * FROM t WHERE a = 1\nAND b = 2" =
      (((⟨['a'], ['='], ['1']⟩ : SimplePred).ident ::
        (([] : List (Bool × SimplePred)).map (fun x => x.2.ident))).map
          (fun cs => String.mk cs)) :=
  c9_newline_truncation "SELECT * FROM t WHERE a = 1\nAND b = 2"
    (renderClause ⟨['a'], ['='], ['1']⟩ [] ++ '\n' :: "AND b = 2".toList)
    ("AND b = 2".toList) ⟨['a'], ['='], ['1']⟩ []
    (by decide) rfl (by decide) (by decide)

end SqlOpt
